import Mathlib

/-!
Verification of `conceptnet5/semantic_web.py` (N-Triples toolkit).

The Python module is shallowly embedded: strings are Lean `String`s, byte
strings are `List Nat` (each entry a byte value), Python exceptions are an
explicit error type threaded through `Except`, and the stateful
reader/writer objects are structures transformed by pure functions.
Standard-library calls made by the source (`str.strip`, `str.split`,
`urllib.parse.unquote_to_bytes`, `bytes.decode('utf-8', 'replace')`,
`urllib.parse.quote`, `urllib.parse.urlsplit`) are modelled byte- and
character-exactly from their CPython 3 semantics.
-/

set_option autoImplicit false

namespace ConceptNet

/-! ## Characters and bytes: UTF-8 encoding -/

/-- UTF-8 encoding of a single Unicode scalar value, as byte values. -/
def utf8EncodeChar (c : Char) : List Nat :=
  let n := c.toNat
  if n < 0x80 then [n]
  else if n < 0x800 then [0xC0 + n / 64, 0x80 + n % 64]
  else if n < 0x10000 then [0xE0 + n / 4096, 0x80 + n / 64 % 64, 0x80 + n % 64]
  else [0xF0 + n / 262144, 0x80 + n / 4096 % 64, 0x80 + n / 64 % 64, 0x80 + n % 64]

/-- The UTF-8 bytes of a string (CPython `str.encode('utf-8')`). -/
def strToBytes (s : String) : List Nat :=
  s.data.flatMap utf8EncodeChar

/-- U+FFFD REPLACEMENT CHARACTER, what CPython's `'replace'` error handler
substitutes for an undecodable maximal subpart. -/
def replacementChar : Char := Char.ofNat 0xFFFD

/-- Is `b` a UTF-8 continuation byte (`0x80`–`0xBF`)? -/
def isCont (b : Nat) : Bool := 0x80 ≤ b && b ≤ 0xBF

/-- Valid range for the first continuation byte of a three-byte sequence
(excludes overlong encodings and surrogates, as CPython does). -/
def cont3ok (b b2 : Nat) : Bool :=
  if b = 0xE0 then 0xA0 ≤ b2 && b2 ≤ 0xBF
  else if b = 0xED then 0x80 ≤ b2 && b2 ≤ 0x9F
  else isCont b2

/-- Valid range for the first continuation byte of a four-byte sequence
(excludes overlong encodings and code points above U+10FFFF). -/
def cont4ok (b b2 : Nat) : Bool :=
  if b = 0xF0 then 0x90 ≤ b2 && b2 ≤ 0xBF
  else if b = 0xF4 then 0x80 ≤ b2 && b2 ≤ 0x8F
  else isCont b2

/-- Fuel-driven worker for `utf8DecodeReplace`. Every step consumes at
least one byte and one unit of fuel, so fuel equal to the length of the
byte list is always enough; the fuel only makes the recursion structural
(and hence kernel-reducible). -/
def utf8DecodeReplaceFuel : Nat → List Nat → List Char
  | 0, _ => []
  | _ + 1, [] => []
  | fuel + 1, b :: rest =>
    if b < 0x80 then Char.ofNat b :: utf8DecodeReplaceFuel fuel rest
    else if 0xC2 ≤ b && b ≤ 0xDF then
      match rest with
      | [] => [replacementChar]
      | b2 :: rest2 =>
        if isCont b2 then
          Char.ofNat ((b - 0xC0) * 64 + (b2 - 0x80)) :: utf8DecodeReplaceFuel fuel rest2
        else replacementChar :: utf8DecodeReplaceFuel fuel (b2 :: rest2)
    else if 0xE0 ≤ b && b ≤ 0xEF then
      match rest with
      | [] => [replacementChar]
      | b2 :: rest2 =>
        if cont3ok b b2 then
          match rest2 with
          | [] => [replacementChar]
          | b3 :: rest3 =>
            if isCont b3 then
              Char.ofNat ((b - 0xE0) * 4096 + (b2 - 0x80) * 64 + (b3 - 0x80)) ::
                utf8DecodeReplaceFuel fuel rest3
            else replacementChar :: utf8DecodeReplaceFuel fuel (b3 :: rest3)
        else replacementChar :: utf8DecodeReplaceFuel fuel (b2 :: rest2)
    else if 0xF0 ≤ b && b ≤ 0xF4 then
      match rest with
      | [] => [replacementChar]
      | b2 :: rest2 =>
        if cont4ok b b2 then
          match rest2 with
          | [] => [replacementChar]
          | b3 :: rest3 =>
            if isCont b3 then
              match rest3 with
              | [] => [replacementChar]
              | b4 :: rest4 =>
                if isCont b4 then
                  Char.ofNat ((b - 0xF0) * 262144 + (b2 - 0x80) * 4096 +
                      (b3 - 0x80) * 64 + (b4 - 0x80)) :: utf8DecodeReplaceFuel fuel rest4
                else replacementChar :: utf8DecodeReplaceFuel fuel (b4 :: rest4)
            else replacementChar :: utf8DecodeReplaceFuel fuel (b3 :: rest3)
        else replacementChar :: utf8DecodeReplaceFuel fuel (b2 :: rest2)
    else replacementChar :: utf8DecodeReplaceFuel fuel rest

/-- Model of CPython `bytes.decode('utf-8', 'replace')`: strict UTF-8
decoding where every maximal invalid subpart becomes one U+FFFD and
decoding resumes at the first unconsumed byte. -/
def utf8DecodeReplace (l : List Nat) : List Char :=
  utf8DecodeReplaceFuel l.length l

/-! ## Percent-decoding: `urllib.parse.unquote_to_bytes` -/

/-- Is `b` the byte of an ASCII hex digit? -/
def isHexDigitByte (b : Nat) : Bool :=
  (48 ≤ b && b ≤ 57) || (65 ≤ b && b ≤ 70) || (97 ≤ b && b ≤ 102)

/-- Value of an ASCII hex-digit byte. -/
def hexVal (b : Nat) : Nat :=
  if 48 ≤ b && b ≤ 57 then b - 48
  else if 65 ≤ b && b ≤ 70 then b - 55
  else b - 87

/-- Model of `urllib.parse.unquote_to_bytes` on the UTF-8 bytes of the
input: each `%` followed by two hex digits becomes that byte; a `%` not
followed by two hex digits is kept verbatim. (CPython splits on `%` and
inspects the first two bytes of each chunk; processing the bytes left to
right is equivalent because `%` is not a hex digit.) -/
def unquoteToBytesFuel : Nat → List Nat → List Nat
  | 0, _ => []
  | _ + 1, [] => []
  | fuel + 1, b :: rest =>
    if b = 37 then
      match rest with
      | h1 :: h2 :: rest2 =>
        if isHexDigitByte h1 && isHexDigitByte h2 then
          (hexVal h1 * 16 + hexVal h2) :: unquoteToBytesFuel fuel rest2
        else 37 :: unquoteToBytesFuel fuel (h1 :: h2 :: rest2)
      | [h1] => 37 :: unquoteToBytesFuel fuel [h1]
      | [] => [37]
    else b :: unquoteToBytesFuel fuel rest

/-- Model of `unquote_to_bytes`, with fuel instantiated to the length. -/
def unquoteToBytes (l : List Nat) : List Nat :=
  unquoteToBytesFuel l.length l

/-! ## Python string helpers used by the source -/

/-- Python `str.lstrip(chars)` on character lists: remove leading
characters while they belong to `cs`. -/
def pyLstrip (cs : List Char) : List Char → List Char
  | [] => []
  | c :: rest => if c ∈ cs then pyLstrip cs rest else c :: rest

/-- Python `str.strip(chars)`: `lstrip` then `rstrip` (the latter is
`lstrip` on the reversed list). -/
def pyStrip (cs : List Char) (l : List Char) : List Char :=
  (pyLstrip cs (pyLstrip cs l).reverse).reverse

/-- Is the first list a prefix of the second (Python `str.startswith`)? -/
def listIsPfx : List Char → List Char → Bool
  | [], _ => true
  | _ :: _, [] => false
  | c :: cs, d :: ds => c == d && listIsPfx cs ds

/-- Python `s.startswith(pre)`. -/
def pyStartswith (s pre : String) : Bool := listIsPfx pre.data s.data

/-- Python `s.endswith(suf)`. -/
def pyEndswith (s suf : String) : Bool := listIsPfx suf.data.reverse s.data.reverse

/-- Python `s.split(sep)` for a single-character separator: split at every
occurrence, keeping empty fields (`''.split(' ') == ['']`). -/
def splitChar (sep : Char) : List Char → List (List Char)
  | [] => [[]]
  | c :: rest =>
    if c = sep then [] :: splitChar sep rest
    else
      match splitChar sep rest with
      | [] => [[c]]
      | g :: gs => (c :: g) :: gs

/-- Python `s.split(sep)` as a `String` operation. -/
def pySplit (sep : Char) (s : String) : List String :=
  (splitChar sep s.data).map (fun l => ⟨l⟩)

/-- Split at the first occurrence of `sep` (Python `s.split(sep, 1)` when
it yields two parts; `none` when `sep` does not occur). -/
def splitFirst (sep : Char) : List Char → Option (List Char × List Char)
  | [] => none
  | c :: rest =>
    if c = sep then some ([], rest)
    else
      match splitFirst sep rest with
      | none => none
      | some (a, b) => some (c :: a, b)

/-- Split at the last occurrence of `sep` (Python `s.rsplit(sep, 1)` when
it yields two parts; `none` when `sep` does not occur). -/
def rsplitLast (sep : Char) (l : List Char) : Option (List Char × List Char) :=
  match splitFirst sep l.reverse with
  | none => none
  | some (a, b) => some (b.reverse, a.reverse)

/-! ## `decode_url` -/

/-- Model of `semantic_web.decode_url`:
`unquote(url.strip('<>')).decode('utf-8', 'replace')`.
Python `strip('<>')` removes every leading and every trailing character
that is `<` or `>`; then the remainder is percent-decoded as raw bytes and
the bytes are decoded as UTF-8 with the `replace` policy. Total: no input
makes it fail. -/
def decode_url (url : String) : String :=
  ⟨utf8DecodeReplace (unquoteToBytes (strToBytes ⟨pyStrip ['<', '>'] url.data⟩))⟩

/-- The bracket stripping that the specification attributes to
`decode_url`: remove at most one leading `<` and at most one trailing `>`,
each independently of the other. -/
def stripOneAngle (l : List Char) : List Char :=
  let l1 :=
    match l with
    | '<' :: rest => rest
    | other => other
  if l1.getLast? = some '>' then l1.dropLast else l1

/-- The function `decode_url` as the specification describes it: one-bracket stripping
followed by the same percent-decoding and UTF-8 decoding. -/
def decodeUrlOneAngle (url : String) : String :=
  ⟨utf8DecodeReplace (unquoteToBytes (strToBytes ⟨stripOneAngle url.data⟩))⟩

/-- Stripping as the code actually performs it, restated: drop every
leading and every trailing character that is `<` or `>` (either bracket,
at both ends). -/
def stripAllAngles (l : List Char) : List Char :=
  ((l.dropWhile fun c => c == '<' || c == '>').reverse.dropWhile
    (fun c => c == '<' || c == '>')).reverse

theorem pyLstrip_angle_eq (l : List Char) :
    pyLstrip ['<', '>'] l = l.dropWhile fun c => c == '<' || c == '>' := by
  induction l with
  | nil => rfl
  | cons c rest ih =>
    by_cases h1 : c = '<'
    · subst h1; simpa [pyLstrip, List.dropWhile] using ih
    · by_cases h2 : c = '>'
      · subst h2; simpa [pyLstrip, List.dropWhile] using ih
      · have hb : (c == '<' || c == '>') = false := by
          simp [h1, h2]
        simp [pyLstrip, List.dropWhile, h1, h2, hb]

/-- Claim C2 counterexample. On `">a<"` the code strips both stray brackets
— Python `str.strip('<>')` removes any leading or trailing character from
the set `{'<', '>'}` — while the claimed stripping of one leading `<` and
one trailing `>` would leave `">a<"` unchanged. -/
theorem decode_url_claim_false :
    decode_url ">a<" = "a" ∧ decodeUrlOneAngle ">a<" = ">a<" ∧
      decode_url ">a<" ≠ decodeUrlOneAngle ">a<" := by decide

/-- Claim C2 (amended). For every input string, `decode_url` strips all
leading and trailing `<`/`>` characters (whichever brackets are present at
either end, any number of them), percent-decodes the remainder as raw
bytes, and interprets the resulting bytes as UTF-8 with replacement
characters for invalid sequences. It never fails: it is a total
`String → String` function by construction. -/
theorem decode_url_spec (url : String) :
    decode_url url =
      ⟨utf8DecodeReplace (unquoteToBytes (strToBytes ⟨stripAllAngles url.data⟩))⟩ := by
  unfold decode_url stripAllAngles pyStrip
  rw [pyLstrip_angle_eq, pyLstrip_angle_eq]

/-! ## Triples Writer -/

/-- A raw triple as passed to the writer: three URL strings. -/
abbrev Triple := String × String × String

/-- Identity of an output stream object. `codecs.open` always yields a
fresh file object, never `sys.stdout`. -/
inductive SinkId where
  | stdout
  | fileOpened (path : String)
  | external (n : Nat)
deriving DecidableEq

/-- The constructor argument of `NTriplesWriter`: a filename (string) or
an already-open stream. -/
inductive WriterArg where
  | path (p : String)
  | stream (s : SinkId)
deriving DecidableEq

/-- State of `semantic_web.NTriplesWriter`: the output stream, the set of
triples already written (`self.seen`), and the lines emitted so far (the
observable content of the stream; `print` terminates each with a newline).
`openedByWriter` is ghost state recording whether `__init__` took the
filename branch — the Python object stores no such flag. -/
structure NTriplesWriter where
  stream : SinkId
  openedByWriter : Bool
  seen : List Triple
  out : List String
deriving DecidableEq

/-- The owl:sameAs relation URL (module constant `SAME_AS`). -/
def SAME_AS : String := "http://www.w3.org/2002/07/owl#sameAs"

namespace NTriplesWriter

/-- Constructor `__init__(filename_or_stream)`: a string argument is a filename the
writer opens itself (`codecs.open(..., 'w', encoding='ascii')`); anything
else is used directly as the output stream. -/
def init : WriterArg → NTriplesWriter
  | .path p => ⟨.fileOpened p, true, [], []⟩
  | .stream s => ⟨s, false, [], []⟩

/-- The line `'<%s> <%s> <%s> .' % triple`. -/
def tripleLine (t : Triple) : String :=
  "<" ++ t.1 ++ "> <" ++ t.2.1 ++ "> <" ++ t.2.2 ++ "> ."

/-- Method `write(triple)`: emit the formatted line unless the triple was
already written. -/
def write (w : NTriplesWriter) (t : Triple) : NTriplesWriter :=
  if t ∈ w.seen then w
  else { w with seen := t :: w.seen, out := w.out ++ [tripleLine t] }

/-- Method `write_same_as(node1, node2)`. -/
def write_same_as (w : NTriplesWriter) (node1 node2 : String) : NTriplesWriter :=
  w.write (node1, SAME_AS, node2)

/-- Method `close()` is `if self.stream is not sys.stdout: self.stream.close()`.
This function returns whether the underlying sink gets closed. -/
def closesSinkOnClose (w : NTriplesWriter) : Bool :=
  w.stream != SinkId.stdout

/-- Folding `write` adds one output line per triple not already seen. -/
theorem write_out_length (ts : List Triple) (w : NTriplesWriter) :
    ((ts.foldl write w).out).length
      = w.out.length + (ts.toFinset \ w.seen.toFinset).card := by
  induction ts generalizing w with
  | nil => simp
  | cons t ts ih =>
    by_cases h : t ∈ w.seen
    · have hw : w.write t = w := by simp [write, h]
      rw [List.foldl_cons, hw, ih]
      congr 2
      ext x
      simp only [Finset.mem_sdiff, List.toFinset_cons, Finset.mem_insert, List.mem_toFinset]
      constructor
      · rintro ⟨hx, hns⟩
        exact ⟨Or.inr hx, hns⟩
      · rintro ⟨hx | hx, hns⟩
        · exact absurd (hx ▸ h) hns
        · exact ⟨hx, hns⟩
    · have hw : w.write t
          = { w with seen := t :: w.seen, out := w.out ++ [tripleLine t] } := by
        simp [write, h]
      rw [List.foldl_cons, hw, ih]
      simp only [List.length_append, List.length_singleton]
      have key : ((t :: ts).toFinset \ w.seen.toFinset)
          = insert t (ts.toFinset \ (t :: w.seen).toFinset) := by
        ext x
        simp only [Finset.mem_sdiff, List.toFinset_cons, Finset.mem_insert,
          List.mem_toFinset, List.mem_cons]
        constructor
        · rintro ⟨hx | hx, hns⟩
          · exact Or.inl hx
          · by_cases hxt : x = t
            · exact Or.inl hxt
            · exact Or.inr ⟨hx, fun hh => hh.elim hxt hns⟩
        · rintro (hx | ⟨hx, hns⟩)
          · exact ⟨Or.inl hx, hx ▸ h⟩
          · exact ⟨Or.inr hx, fun hh => hns (Or.inr hh)⟩
      rw [key, Finset.card_insert_of_not_mem (by simp)]
      omega

end NTriplesWriter

/-- Claim C5. Writer deduplication: a `write` whose triple is already in the
seen-set changes nothing; over any sequence of writes on one writer the
number of emitted lines equals the number of distinct triples; writing the
same triple twice yields one line, and two distinct triples yield two. -/
theorem writer_dedup :
    (∀ (w : NTriplesWriter) (t : Triple), t ∈ w.seen → w.write t = w) ∧
    (∀ (arg : WriterArg) (ts : List Triple),
      ((ts.foldl NTriplesWriter.write (NTriplesWriter.init arg)).out).length
        = ts.toFinset.card) ∧
    (∀ t : Triple,
      (([t, t]).foldl NTriplesWriter.write
        (NTriplesWriter.init (.stream .stdout))).out.length = 1) ∧
    (∀ t u : Triple, t ≠ u →
      (([t, u]).foldl NTriplesWriter.write
        (NTriplesWriter.init (.stream .stdout))).out.length = 2) := by
  have base : ∀ arg : WriterArg, (NTriplesWriter.init arg).seen = []
      ∧ (NTriplesWriter.init arg).out = [] := by
    intro arg; cases arg <;> exact ⟨rfl, rfl⟩
  refine ⟨fun w t h => by simp [NTriplesWriter.write, h], fun arg ts => ?_,
    fun t => ?_, fun t u h => ?_⟩
  · rw [NTriplesWriter.write_out_length, (base arg).1, (base arg).2]
    simp
  · rw [NTriplesWriter.write_out_length]
    simp [NTriplesWriter.init]
  · rw [NTriplesWriter.write_out_length]
    simp [NTriplesWriter.init, Finset.card_insert_of_not_mem, h]

/-- Witness for C5: a concrete already-seen no-op write, and two distinct
concrete triples producing two lines. -/
theorem writer_dedup_witness :
    ((("a", "b", "c") : Triple) ∈
        (⟨SinkId.stdout, false, [("a", "b", "c")], []⟩ : NTriplesWriter).seen ∧
      (⟨SinkId.stdout, false, [("a", "b", "c")], []⟩ : NTriplesWriter).write ("a", "b", "c")
        = ⟨SinkId.stdout, false, [("a", "b", "c")], []⟩) ∧
    ((("a", "b", "c") : Triple) ≠ ("a", "b", "d") ∧
      (([("a", "b", "c"), ("a", "b", "d")]).foldl NTriplesWriter.write
        (NTriplesWriter.init (.stream .stdout))).out.length = 2) :=
  ⟨⟨by decide, writer_dedup.1 _ _ (by decide)⟩,
   ⟨by decide, writer_dedup.2.2.2 _ _ (by decide)⟩⟩

/-- Claim C6 counterexample. A writer built around an externally supplied
sink that is not standard output: the writer did not open it, yet `close`
closes it, because the code only tests `stream is not sys.stdout` and
tracks no ownership. -/
theorem close_ownership_claim_false :
    ¬ ∀ arg : WriterArg,
        NTriplesWriter.closesSinkOnClose (NTriplesWriter.init arg)
          = (NTriplesWriter.init arg).openedByWriter :=
  fun h => absurd (h (.stream (.external 0))) (by decide)

/-- Claim C6 (amended). `close` closes the underlying sink iff the sink is
not `sys.stdout`. A sink the writer opened from a path is therefore always
closed, and standard output never is, but an externally supplied sink
other than standard output is closed as well — the writer tracks no
ownership flag. -/
theorem close_spec :
    (∀ arg : WriterArg,
      NTriplesWriter.closesSinkOnClose (NTriplesWriter.init arg)
        = ((NTriplesWriter.init arg).stream != SinkId.stdout)) ∧
    (∀ p : String,
      NTriplesWriter.closesSinkOnClose (NTriplesWriter.init (.path p)) = true) ∧
    NTriplesWriter.closesSinkOnClose (NTriplesWriter.init (.stream .stdout)) = false ∧
    (∀ n : Nat,
      NTriplesWriter.closesSinkOnClose (NTriplesWriter.init (.stream (.external n)))
        = true) :=
  ⟨fun _ => rfl, fun _ => rfl, rfl, fun _ => rfl⟩

/-! ## Triples Reader -/

/-- The Python exceptions the parsing code can raise: `ValueError`
(failed tuple unpacking of a `split` result), `AssertionError` (failed
`assert`), and `KeyError` carrying the unknown prefix token. -/
inductive PyErr where
  | valueError
  | assertionError
  | keyError (pfx : String)
deriving DecidableEq

/-- A resolved node `(lang-or-'URL', text)`. -/
abbrev Node := String × String

deriving instance DecidableEq for Except

/-- The reader's `self.prefixes` dict, modelled as an association list:
insertion prepends and lookup takes the first match, which gives the
dict's last-write-wins update semantics. -/
abbrev PrefixTable := List (String × String)

/-- Dict lookup `self.prefixes[k]` / membership test. -/
def lookupPfx (tbl : PrefixTable) (k : String) : Option String :=
  match tbl with
  | [] => none
  | (k', v) :: rest => if k' = k then some v else lookupPfx rest k

/-- Dict assignment `self.prefixes[k] = v`. -/
def insertPfx (tbl : PrefixTable) (k v : String) : PrefixTable :=
  (k, v) :: tbl

/-- Python `s.rstrip(':')`: drop every trailing colon. -/
def pyRstripColon (s : String) : String :=
  ⟨(pyLstrip [':'] s.data.reverse).reverse⟩

/-- State of `semantic_web.NTriplesReader`: just the prefix table. -/
structure NTriplesReader where
  prefixes : PrefixTable
deriving DecidableEq

namespace NTriplesReader

/-- Method `resolve_node(encoded_url)`: a `<...>` token is a literal URL; a
token starting with `"` is a quoted literal with a language tag split off
at the last `@`; anything else is split at the first `:` into a prefix
and a resource and expanded through the prefix table. Reads the table,
never writes it. -/
def resolve_node (tbl : PrefixTable) (encoded_url : String) : Except PyErr Node :=
  if pyStartswith encoded_url "<" && pyEndswith encoded_url ">" then
    .ok ("URL", decode_url encoded_url)
  else if pyStartswith encoded_url "\"" then
    match rsplitLast '@' encoded_url.data with
    | none => .error .valueError
    | some (quoted, langCode) =>
      if listIsPfx ['"'] quoted && listIsPfx ['"'] quoted.reverse then
        .ok (⟨(splitChar '-' langCode).headD []⟩, ⟨(quoted.drop 1).dropLast⟩)
      else .error .assertionError
  else
    match splitFirst ':' encoded_url.data with
    | none => .error .valueError
    | some (pfx, res) =>
      match lookupPfx tbl ⟨pfx⟩ with
      | none => .error (.keyError ⟨pfx⟩)
      | some url_base => .ok ("URL", decode_url (url_base ++ ⟨res⟩))

/-- Method `parse_line(line)`: `@prefix` lines update the table and yield
nothing; other lines resolve their three fields (subject first). The
updated reader is returned alongside; every error branch leaves the
reader as it was. -/
def parse_line (r : NTriplesReader) (line : String) :
    Except PyErr (Option (Node × Node × Node)) × NTriplesReader :=
  if pyStartswith line "@prefix" = true then
    match pySplit ' ' line with
    | [_op, pfxTok, url, dot] =>
      if dot = "." then
        (.ok none, ⟨insertPfx r.prefixes (pyRstripColon pfxTok) (decode_url url)⟩)
      else (.error .assertionError, r)
    | _ => (.error .valueError, r)
  else
    match pySplit ' ' line with
    | [subj, rel, obj, dot] =>
      if dot = "." then
        match resolve_node r.prefixes subj with
        | .error e => (.error e, r)
        | .ok n1 =>
          match resolve_node r.prefixes rel with
          | .error e => (.error e, r)
          | .ok n2 =>
            match resolve_node r.prefixes obj with
            | .error e => (.error e, r)
            | .ok n3 => (.ok (some (n1, n2, n3)), r)
      else (.error .assertionError, r)
    | _ => (.error .valueError, r)

end NTriplesReader

/-! ### Helper lemmas about the split primitives -/

theorem splitFirst_eq_none {sep : Char} {l : List Char} (h : sep ∉ l) :
    splitFirst sep l = none := by
  induction l with
  | nil => rfl
  | cons c rest ih =>
    have hc : ¬ c = sep := by rintro rfl; exact h (List.mem_cons_self _ _)
    have hr : sep ∉ rest := fun hm => h (List.mem_cons_of_mem _ hm)
    simp [splitFirst, hc, ih hr]

theorem splitFirst_of_mem {sep : Char} {l : List Char} (h : sep ∈ l) :
    ∃ a b, splitFirst sep l = some (a, b) ∧ l = a ++ sep :: b ∧ sep ∉ a := by
  induction l with
  | nil => cases h
  | cons c rest ih =>
    by_cases hc : c = sep
    · subst hc
      exact ⟨[], rest, by simp [splitFirst], rfl, by simp⟩
    · have hr : sep ∈ rest := by
        rcases List.mem_cons.mp h with h1 | h1
        · exact absurd h1.symm hc
        · exact h1
      obtain ⟨a, b, hsf, heq, hna⟩ := ih hr
      refine ⟨c :: a, b, ?_, by simp [heq], ?_⟩
      · simp [splitFirst, hc, hsf]
      · intro hm
        rcases List.mem_cons.mp hm with h1 | h1
        · exact hc h1.symm
        · exact hna h1

theorem splitChar_ne_nil (sep : Char) (l : List Char) : splitChar sep l ≠ [] := by
  cases l with
  | nil => simp [splitChar]
  | cons c rest =>
    by_cases hc : c = sep
    · simp [splitChar, hc]
    · simp only [splitChar, if_neg hc]
      cases splitChar sep rest <;> simp

theorem splitChar_headD (sep : Char) (l : List Char) :
    ((splitChar sep l).head?).getD [] = l.takeWhile fun c => !(c == sep) := by
  induction l with
  | nil => rfl
  | cons c rest ih =>
    by_cases hc : c = sep
    · subst hc; simp [splitChar, List.takeWhile]
    · obtain ⟨g, gs, hgs⟩ : ∃ g gs, splitChar sep rest = g :: gs := by
        cases h : splitChar sep rest with
        | nil => exact absurd h (splitChar_ne_nil _ _)
        | cons g gs => exact ⟨g, gs, rfl⟩
      have hb : (!(c == sep)) = true := by simp [hc]
      rw [hgs] at ih
      simp only [splitChar, if_neg hc, hgs, List.takeWhile, hb, Option.getD,
        List.head?] at ih ⊢
      simp [ih]

/-- Error results of `parse_line` never change the reader. -/
theorem parse_line_state (r : NTriplesReader) (line : String) :
    (r.parse_line line).2 = r ∨ (r.parse_line line).1 = .ok none := by
  unfold NTriplesReader.parse_line
  split
  · split
    · split
      · exact Or.inr rfl
      · exact Or.inl rfl
    · exact Or.inl rfl
  · split
    · split
      · split
        · exact Or.inl rfl
        · split
          · exact Or.inl rfl
          · split <;> exact Or.inl rfl
      · exact Or.inl rfl
    · exact Or.inl rfl

theorem parse_line_error_frame (r : NTriplesReader) (line : String) (e : PyErr)
    (h : (r.parse_line line).1 = .error e) : (r.parse_line line).2 = r := by
  rcases parse_line_state r line with hs | hs
  · exact hs
  · rw [hs] at h; cases h

/-- Claim C3. A token that is not bracket-delimited, does not start with a
quote, and contains a colon is split at its first colon into a prefix and
a resource. An absent prefix gives the distinct `KeyError` carrying that
prefix token; a present prefix gives `('URL', decode_url(base ++
resource))`, the concatenation happening before decoding. No error path
of `parse_line` (in particular the unknown-prefix one) mutates the
prefix table. -/
theorem resolve_node_prefixed_spec (tbl : PrefixTable) (tok : String)
    (hbr : (pyStartswith tok "<" && pyEndswith tok ">") = false)
    (hq : pyStartswith tok "\"" = false)
    (hc : ':' ∈ tok.data) :
    ∃ pfx res, splitFirst ':' tok.data = some (pfx, res) ∧
      tok.data = pfx ++ ':' :: res ∧ ':' ∉ pfx ∧
      (lookupPfx tbl ⟨pfx⟩ = none →
        NTriplesReader.resolve_node tbl tok = .error (.keyError ⟨pfx⟩)) ∧
      (∀ base, lookupPfx tbl ⟨pfx⟩ = some base →
        NTriplesReader.resolve_node tbl tok = .ok ("URL", decode_url (base ++ ⟨res⟩))) ∧
      (∀ (r : NTriplesReader) (line : String) (e : PyErr),
        (r.parse_line line).1 = .error e → (r.parse_line line).2 = r) := by
  obtain ⟨a, b, hsf, heq, hna⟩ := splitFirst_of_mem hc
  refine ⟨a, b, hsf, heq, hna, ?_, ?_, parse_line_error_frame⟩
  · intro hnone
    simp [NTriplesReader.resolve_node, hbr, hq, hsf, hnone]
  · intro base hsome
    simp [NTriplesReader.resolve_node, hbr, hq, hsf, hsome]

/-- Witness for C3: the docstring example. After defining `wn30`, the
token `wn30:synset-Roman_alphabet-noun-1` resolves through the table, and
an undefined prefix yields its `KeyError`. -/
theorem resolve_node_prefixed_witness :
    NTriplesReader.resolve_node [("wn30", "http://purl.org/vocabularies/princeton/wn30/")]
        "wn30:synset-Roman_alphabet-noun-1"
      = .ok ("URL", "http://purl.org/vocabularies/princeton/wn30/synset-Roman_alphabet-noun-1") ∧
    NTriplesReader.resolve_node [] "wn30:synset-Roman_alphabet-noun-1"
      = .error (.keyError "wn30") := by
  constructor
  · obtain ⟨pfx, res, hsf, _heq, _hna, _hko, hok, _⟩ :=
      resolve_node_prefixed_spec
        [("wn30", "http://purl.org/vocabularies/princeton/wn30/")]
        "wn30:synset-Roman_alphabet-noun-1" (by decide) (by decide) (by decide)
    have hsf' : splitFirst ':' ("wn30:synset-Roman_alphabet-noun-1").data
        = some ("wn30".data, "synset-Roman_alphabet-noun-1".data) := by decide
    rw [hsf'] at hsf
    injection hsf with hpair
    injection hpair with h1 h2
    subst h1
    subst h2
    have := hok "http://purl.org/vocabularies/princeton/wn30/" (by decide)
    rw [this]
    decide
  · obtain ⟨pfx, res, hsf, _heq, _hna, hko, _hok, _⟩ :=
      resolve_node_prefixed_spec [] "wn30:synset-Roman_alphabet-noun-1"
        (by decide) (by decide) (by decide)
    have hsf' : splitFirst ':' ("wn30:synset-Roman_alphabet-noun-1").data
        = some ("wn30".data, "synset-Roman_alphabet-noun-1".data) := by decide
    rw [hsf'] at hsf
    injection hsf with hpair
    injection hpair with h1 h2
    subst h1
    subst h2
    have := hko (by decide)
    rw [this]

theorem startswith_quote_shape {tok : String} (hq : pyStartswith tok "\"" = true) :
    ∃ rest, tok.data = '"' :: rest := by
  unfold pyStartswith at hq
  have hd : ("\"" : String).data = ['"'] := rfl
  rw [hd] at hq
  cases htd : tok.data with
  | nil => rw [htd] at hq; simp [listIsPfx] at hq
  | cons c rest =>
    rw [htd] at hq
    simp only [listIsPfx, Bool.and_eq_true, beq_iff_eq] at hq
    exact ⟨rest, by rw [hq.1]⟩

/-- Claim C9. A token that starts with `"` and contains `@` is split at its
last `@` into a quoted segment and a language tag. If the quoted segment
does not both start and end with `"`, the assertion fails; otherwise the
result's tag is the language tag up to its first `-` and the text is the
quoted segment with its two surrounding characters removed — no
un-escaping of the interior is performed. -/
theorem resolve_node_literal_spec (tbl : PrefixTable) (tok : String)
    (hq : pyStartswith tok "\"" = true) (ha : '@' ∈ tok.data) :
    ∃ quoted langCode, rsplitLast '@' tok.data = some (quoted, langCode) ∧
      tok.data = quoted ++ '@' :: langCode ∧ '@' ∉ langCode ∧
      ((listIsPfx ['"'] quoted && listIsPfx ['"'] quoted.reverse) = true →
        NTriplesReader.resolve_node tbl tok =
          .ok (⟨langCode.takeWhile fun c => !(c == '-')⟩, ⟨(quoted.drop 1).dropLast⟩)) ∧
      ((listIsPfx ['"'] quoted && listIsPfx ['"'] quoted.reverse) = false →
        NTriplesReader.resolve_node tbl tok = .error .assertionError) := by
  obtain ⟨rest, hshape⟩ := startswith_quote_shape hq
  have har : '@' ∈ tok.data.reverse := by simpa using ha
  obtain ⟨a, b, hsf, heqr, hna⟩ := splitFirst_of_mem har
  have hrs : rsplitLast '@' tok.data = some (b.reverse, a.reverse) := by
    unfold rsplitLast
    rw [hsf]
  have heq : tok.data = b.reverse ++ '@' :: a.reverse := by
    have hrr := congrArg List.reverse heqr
    simpa using hrr
  have hbr : (pyStartswith tok "<" && pyEndswith tok ">") = false := by
    unfold pyStartswith
    have hd : ("<" : String).data = ['<'] := rfl
    rw [hd, hshape]
    simp [listIsPfx]
  refine ⟨b.reverse, a.reverse, hrs, heq, by simpa using hna, ?_, ?_⟩
  · intro hcheck
    simp only [List.reverse_reverse] at hcheck
    obtain ⟨hc1, hc2⟩ := (Bool.and_eq_true _ _) ▸ hcheck
    simp [NTriplesReader.resolve_node, hbr, hq, hrs, hc1, hc2, splitChar_headD]
  · intro hcheck
    simp only [List.reverse_reverse] at hcheck
    rcases Bool.and_eq_false_iff.mp hcheck with hc | hc <;>
      simp [NTriplesReader.resolve_node, hbr, hq, hrs, hc]

/-- Witness for C9: the docstring example `"Abelian group"@en-us` yields
`('en', 'Abelian group')` (region suffix dropped), and a literal whose
quoted segment lacks its closing quote hits the assertion error. -/
theorem resolve_node_literal_witness :
    NTriplesReader.resolve_node [] "\"Abelian group\"@en-us" = .ok ("en", "Abelian group") ∧
    NTriplesReader.resolve_node [] "\"Abelian group@en" = .error .assertionError := by
  constructor
  · obtain ⟨quoted, langCode, hrs, _heq, _hna, hok, _hbad⟩ :=
      resolve_node_literal_spec [] "\"Abelian group\"@en-us" (by decide) (by decide)
    have hrs' : rsplitLast '@' ("\"Abelian group\"@en-us").data
        = some ("\"Abelian group\"".data, "en-us".data) := by decide
    rw [hrs'] at hrs
    injection hrs with hpair
    injection hpair with h1 h2
    subst h1
    subst h2
    have := hok (by decide)
    rw [this]
    decide
  · obtain ⟨quoted, langCode, hrs, _heq, _hna, _hok, hbad⟩ :=
      resolve_node_literal_spec [] "\"Abelian group@en" (by decide) (by decide)
    have hrs' : rsplitLast '@' ("\"Abelian group@en").data
        = some ("\"Abelian group".data, "en".data) := by decide
    rw [hrs'] at hrs
    injection hrs with hpair
    injection hpair with h1 h2
    subst h1
    subst h2
    exact hbad (by decide)

/-- Claim C10. A token that is not bracket-delimited, does not start with
`"`, and contains no colon makes `resolve_node` fail with the generic
unpacking `ValueError`, which is distinct from the unknown-prefix
`KeyError`; no error path of `parse_line` mutates the prefix table. -/
theorem resolve_node_no_colon_spec (tbl : PrefixTable) (tok : String)
    (hbr : (pyStartswith tok "<" && pyEndswith tok ">") = false)
    (hq : pyStartswith tok "\"" = false)
    (hc : ':' ∉ tok.data) :
    NTriplesReader.resolve_node tbl tok = .error .valueError ∧
    (∀ p, NTriplesReader.resolve_node tbl tok ≠ .error (.keyError p)) ∧
    (∀ (r : NTriplesReader) (line : String) (e : PyErr),
      (r.parse_line line).1 = .error e → (r.parse_line line).2 = r) := by
  have hsf := splitFirst_eq_none hc
  have hmain : NTriplesReader.resolve_node tbl tok = .error .valueError := by
    simp [NTriplesReader.resolve_node, hbr, hq, hsf]
  refine ⟨hmain, fun p => ?_, parse_line_error_frame⟩
  rw [hmain]
  simp

/-- Witness for C10: the bare token `abc` (no brackets, no quote, no
colon) raises the generic `ValueError`. -/
theorem resolve_node_no_colon_witness :
    NTriplesReader.resolve_node [] "abc" = .error .valueError :=
  (resolve_node_no_colon_spec [] "abc" (by decide) (by decide) (by decide)).1

/-! ### `parse_line` case analysis -/

theorem parse_line_not4 (r : NTriplesReader) (line : String)
    (h : ∀ f1 f2 f3 f4, pySplit ' ' line ≠ [f1, f2, f3, f4]) :
    r.parse_line line = (.error .valueError, r) := by
  unfold NTriplesReader.parse_line
  split
  · split
    · next f1 f2 f3 f4 heq => exact absurd heq (h f1 f2 f3 f4)
    · rfl
  · split
    · next f1 f2 f3 f4 heq => exact absurd heq (h f1 f2 f3 f4)
    · rfl

theorem parse_line_baddot (r : NTriplesReader) (line f1 f2 f3 f4 : String)
    (hsp : pySplit ' ' line = [f1, f2, f3, f4]) (hd : f4 ≠ ".") :
    r.parse_line line = (.error .assertionError, r) := by
  unfold NTriplesReader.parse_line
  rw [hsp]
  split <;> simp [hd]

theorem parse_line_pfxline_ok (r : NTriplesReader) (line f1 f2 f3 : String)
    (hp : pyStartswith line "@prefix" = true)
    (hsp : pySplit ' ' line = [f1, f2, f3, "."]) :
    r.parse_line line
      = (.ok none, ⟨insertPfx r.prefixes (pyRstripColon f2) (decode_url f3)⟩) := by
  unfold NTriplesReader.parse_line
  rw [hsp]
  simp [hp]

theorem parse_line_triple_red (r : NTriplesReader) (line f1 f2 f3 : String)
    (hp : pyStartswith line "@prefix" = false)
    (hsp : pySplit ' ' line = [f1, f2, f3, "."]) :
    r.parse_line line =
      (match NTriplesReader.resolve_node r.prefixes f1 with
       | .error e => (.error e, r)
       | .ok n1 =>
         match NTriplesReader.resolve_node r.prefixes f2 with
         | .error e => (.error e, r)
         | .ok n2 =>
           match NTriplesReader.resolve_node r.prefixes f3 with
           | .error e => (.error e, r)
           | .ok n3 => (.ok (some (n1, n2, n3)), r)) := by
  unfold NTriplesReader.parse_line
  rw [hsp]
  simp [hp]

/-- Claim C4 counterexample. The line `"a:b <c> <d> ."` splits on single
spaces into exactly 4 fields whose 4th is `"."`, yet `parse_line` on a
fresh reader fails — resolving `a:b` raises the unknown-prefix
`KeyError` — refuting "fails exactly when the split is malformed". -/
theorem parse_line_claim_false :
    (pySplit ' ' "a:b <c> <d> .").length = 4 ∧
    (pySplit ' ' "a:b <c> <d> .").getLastD "" = "." ∧
    (NTriplesReader.parse_line ⟨[]⟩ "a:b <c> <d> .").1 = .error (.keyError "a") := by
  refine ⟨by decide, by decide, ?_⟩
  have h := parse_line_triple_red ⟨[]⟩ "a:b <c> <d> ." "a:b" "<c>" "<d>"
    (by decide) (by decide)
  rw [h]
  decide

/-- Claim C4 (amended). For every line: an `@prefix` line fails with the
malformed-prefix-line error exactly when splitting on single spaces does
not give 4 fields (`ValueError`) or the 4th field is not `"."`
(`AssertionError`), and otherwise updates the prefix table and returns no
element. Any other line fails with the malformed-triple-line error under
the same split condition; when the split is well-formed it additionally
propagates the first resolution error among its three fields if one
fails, and only otherwise returns the 3-tuple of resolved nodes. Errors
leave the reader unchanged. -/
theorem parse_line_spec (r : NTriplesReader) (line : String) :
    (pyStartswith line "@prefix" = true →
      ((∀ f1 f2 f3 f4, pySplit ' ' line ≠ [f1, f2, f3, f4]) →
        r.parse_line line = (.error .valueError, r)) ∧
      (∀ f1 f2 f3 f4, pySplit ' ' line = [f1, f2, f3, f4] → f4 ≠ "." →
        r.parse_line line = (.error .assertionError, r)) ∧
      (∀ f1 f2 f3, pySplit ' ' line = [f1, f2, f3, "."] →
        r.parse_line line
          = (.ok none, ⟨insertPfx r.prefixes (pyRstripColon f2) (decode_url f3)⟩))) ∧
    (pyStartswith line "@prefix" = false →
      ((∀ f1 f2 f3 f4, pySplit ' ' line ≠ [f1, f2, f3, f4]) →
        r.parse_line line = (.error .valueError, r)) ∧
      (∀ f1 f2 f3 f4, pySplit ' ' line = [f1, f2, f3, f4] → f4 ≠ "." →
        r.parse_line line = (.error .assertionError, r)) ∧
      (∀ f1 f2 f3, pySplit ' ' line = [f1, f2, f3, "."] →
        (∀ e, NTriplesReader.resolve_node r.prefixes f1 = .error e →
          r.parse_line line = (.error e, r)) ∧
        (∀ n1, NTriplesReader.resolve_node r.prefixes f1 = .ok n1 →
          (∀ e, NTriplesReader.resolve_node r.prefixes f2 = .error e →
            r.parse_line line = (.error e, r)) ∧
          (∀ n2, NTriplesReader.resolve_node r.prefixes f2 = .ok n2 →
            (∀ e, NTriplesReader.resolve_node r.prefixes f3 = .error e →
              r.parse_line line = (.error e, r)) ∧
            (∀ n3, NTriplesReader.resolve_node r.prefixes f3 = .ok n3 →
              r.parse_line line = (.ok (some (n1, n2, n3)), r)))))) := by
  constructor
  · intro hp
    refine ⟨parse_line_not4 r line, parse_line_baddot r line, ?_⟩
    intro f1 f2 f3 hsp
    exact parse_line_pfxline_ok r line f1 f2 f3 hp hsp
  · intro hp
    refine ⟨parse_line_not4 r line, parse_line_baddot r line, ?_⟩
    intro f1 f2 f3 hsp
    have hred := parse_line_triple_red r line f1 f2 f3 hp hsp
    refine ⟨fun e he => by rw [hred, he], fun n1 h1 => ?_⟩
    rw [h1] at hred
    refine ⟨fun e he => by rw [hred, he], fun n2 h2 => ?_⟩
    rw [h2] at hred
    exact ⟨fun e he => by rw [hred, he], fun n3 h3 => by rw [hred, h3]⟩

/-- Witness for C4: the docstring prefix line installs `wn30` in the
table; a triple line with a bad terminator hits the assertion; a
two-field line hits the unpacking error. -/
theorem parse_line_spec_witness :
    (NTriplesReader.parse_line ⟨[]⟩
        "@prefix wn30: <http://purl.org/vocabularies/princeton/wn30/> ."
      = (.ok none, ⟨[("wn30", "http://purl.org/vocabularies/princeton/wn30/")]⟩)) ∧
    (NTriplesReader.parse_line ⟨[]⟩ "<a> <b> <c> x"
      = (.error .assertionError, ⟨[]⟩)) ∧
    (NTriplesReader.parse_line ⟨[]⟩ "<a> <b>" = (.error .valueError, ⟨[]⟩)) := by
  refine ⟨?_, ?_, ?_⟩
  · have h := ((parse_line_spec ⟨[]⟩
        "@prefix wn30: <http://purl.org/vocabularies/princeton/wn30/> .").1
      (by decide)).2.2 "@prefix" "wn30:" "<http://purl.org/vocabularies/princeton/wn30/>"
      (by decide)
    rw [h]
    decide
  · have h := ((parse_line_spec ⟨[]⟩ "<a> <b> <c> x").2 (by decide)).2.1
      "<a>" "<b>" "<c>" "x" (by decide) (by decide)
    rw [h]
  · have hne : ∀ f1 f2 f3 f4 : String, pySplit ' ' "<a> <b>" ≠ [f1, f2, f3, f4] := by
      intro f1 f2 f3 f4 hcontra
      have hlen : (pySplit ' ' "<a> <b>").length = 2 := by decide
      rw [hcontra] at hlen
      simp at hlen
    have h := ((parse_line_spec ⟨[]⟩ "<a> <b>").2 (by decide)).1 hne
    rw [h]

/-! ### Round trip: writer output parsed back (ASCII tokens) -/

theorem splitChar_of_not_mem {sep : Char} {l : List Char} (h : sep ∉ l) :
    splitChar sep l = [l] := by
  induction l with
  | nil => rfl
  | cons c rest ih =>
    have hc : ¬ c = sep := by rintro rfl; exact h (List.mem_cons_self _ _)
    have hr : sep ∉ rest := fun hm => h (List.mem_cons_of_mem _ hm)
    simp [splitChar, hc, ih hr]

theorem splitChar_append {sep : Char} {xs : List Char} (ys : List Char) (h : sep ∉ xs) :
    splitChar sep (xs ++ sep :: ys) = xs :: splitChar sep ys := by
  induction xs with
  | nil => simp [splitChar]
  | cons c rest ih =>
    have hc : ¬ c = sep := by rintro rfl; exact h (List.mem_cons_self _ _)
    have hr : sep ∉ rest := fun hm => h (List.mem_cons_of_mem _ hm)
    rw [List.cons_append]
    simp [splitChar, hc, ih hr]

theorem utf8EncodeChar_ascii {c : Char} (h : c.toNat < 128) :
    utf8EncodeChar c = [c.toNat] := by
  simp [utf8EncodeChar, h]

theorem flatMap_ascii : ∀ {l : List Char}, (∀ c ∈ l, c.toNat < 128) →
    l.flatMap utf8EncodeChar = l.map Char.toNat := by
  intro l
  induction l with
  | nil => intro _; rfl
  | cons c rest ih =>
    intro h
    rw [List.flatMap_cons, utf8EncodeChar_ascii (h c (List.mem_cons_self _ _)),
      List.map_cons, ih (fun x hx => h x (List.mem_cons_of_mem _ hx))]
    rfl

theorem unquoteToBytesFuel_no_pct : ∀ {bs : List Nat}, 37 ∉ bs →
    ∀ fuel, bs.length ≤ fuel → unquoteToBytesFuel fuel bs = bs := by
  intro bs
  induction bs with
  | nil => intro _ fuel _; cases fuel <;> rfl
  | cons b rest ih =>
    intro h fuel hf
    cases fuel with
    | zero => simp at hf
    | succ f =>
      have hb : ¬ b = 37 := by rintro rfl; exact h (List.mem_cons_self _ _)
      have hr : (37 : Nat) ∉ rest := fun hm => h (List.mem_cons_of_mem _ hm)
      simp only [unquoteToBytesFuel, if_neg hb]
      rw [ih hr f (Nat.le_of_succ_le_succ (by simpa using hf))]

theorem utf8DecodeReplaceFuel_ascii : ∀ {bs : List Nat}, (∀ b ∈ bs, b < 128) →
    ∀ fuel, bs.length ≤ fuel → utf8DecodeReplaceFuel fuel bs = bs.map Char.ofNat := by
  intro bs
  induction bs with
  | nil => intro _ fuel _; cases fuel <;> rfl
  | cons b rest ih =>
    intro h fuel hf
    cases fuel with
    | zero => simp at hf
    | succ f =>
      have hb : b < 0x80 := h b (List.mem_cons_self _ _)
      simp only [utf8DecodeReplaceFuel, if_pos hb, List.map_cons]
      rw [ih (fun x hx => h x (List.mem_cons_of_mem _ hx)) f
        (Nat.le_of_succ_le_succ (by simpa using hf))]

/-- On ASCII text without `%`, the whole decoding pipeline is the
identity. -/
theorem decode_pipeline_ascii {l : List Char} (h : ∀ c ∈ l, c.toNat < 128 ∧ c ≠ '%') :
    utf8DecodeReplace (unquoteToBytes (strToBytes ⟨l⟩)) = l := by
  have hb : strToBytes ⟨l⟩ = l.map Char.toNat := flatMap_ascii (fun c hc => (h c hc).1)
  have hpc : (37 : Nat) ∉ l.map Char.toNat := by
    intro hm
    obtain ⟨c, hc, hceq⟩ := List.mem_map.mp hm
    have h2 := congrArg Char.ofNat hceq
    rw [Char.ofNat_toNat] at h2
    exact (h c hc).2 (h2.trans (by decide))
  have hu : unquoteToBytes (l.map Char.toNat) = l.map Char.toNat :=
    unquoteToBytesFuel_no_pct hpc _ le_rfl
  have hm : ∀ b ∈ l.map Char.toNat, b < 128 := by
    intro b hbm
    obtain ⟨c, hc, hceq⟩ := List.mem_map.mp hbm
    exact hceq ▸ (h c hc).1
  have hd : utf8DecodeReplace (l.map Char.toNat) = (l.map Char.toNat).map Char.ofNat :=
    utf8DecodeReplaceFuel_ascii hm _ le_rfl
  rw [hb, hu, hd, List.map_map]
  simp [Function.comp_def, Char.ofNat_toNat]

theorem pyLstrip_of_all_not_mem {cs m : List Char} (h : ∀ x ∈ m, x ∉ cs) :
    pyLstrip cs m = m := by
  cases m with
  | nil => rfl
  | cons c rest => simp [pyLstrip, h c (List.mem_cons_self _ _)]

/-- Stripping `<>` from a bracket-wrapped token whose interior contains
no angle brackets recovers the interior. -/
theorem pyStrip_angle_wrap {l : List Char} (h : ∀ c ∈ l, c ≠ '<' ∧ c ≠ '>') :
    pyStrip ['<', '>'] ('<' :: (l ++ ['>'])) = l := by
  have hnotin : ∀ x ∈ l, x ∉ (['<', '>'] : List Char) := by
    intro x hx hmem
    rcases List.mem_cons.mp hmem with h1 | h1
    · exact (h x hx).1 h1
    · exact (h x hx).2 (by simpa using h1)
  unfold pyStrip
  rw [show pyLstrip ['<', '>'] ('<' :: (l ++ ['>'])) = pyLstrip ['<', '>'] (l ++ ['>']) by
    simp [pyLstrip]]
  cases l with
  | nil => decide
  | cons c rest =>
    have hc := hnotin c (List.mem_cons_self _ _)
    have hall : ∀ x ∈ rest.reverse ++ [c], x ∉ (['<', '>'] : List Char) := by
      intro x hx
      rcases List.mem_append.mp hx with h1 | h1
      · exact hnotin x (List.mem_cons_of_mem _ (List.mem_reverse.mp h1))
      · have hxc : x = c := by simpa using h1
        exact hxc ▸ hc
    rw [List.cons_append]
    rw [show pyLstrip ['<', '>'] (c :: (rest ++ ['>'])) = c :: (rest ++ ['>']) by
      simp [pyLstrip, hc]]
    rw [show (c :: (rest ++ ['>'])).reverse = '>' :: (rest.reverse ++ [c]) by simp]
    rw [show pyLstrip ['<', '>'] ('>' :: (rest.reverse ++ [c]))
        = pyLstrip ['<', '>'] (rest.reverse ++ [c]) by simp [pyLstrip]]
    rw [pyLstrip_of_all_not_mem hall]
    simp

/-- A bracket-wrapped clean ASCII token resolves to itself as a URL
node. -/
theorem resolve_node_bracket (tbl : PrefixTable) (s : String)
    (h : ∀ c ∈ s.data, c.toNat < 128 ∧ c ≠ ' ' ∧ c ≠ '<' ∧ c ≠ '>' ∧ c ≠ '%') :
    NTriplesReader.resolve_node tbl ("<" ++ s ++ ">") = .ok ("URL", s) := by
  have hdata : ("<" ++ s ++ ">").data = '<' :: (s.data ++ ['>']) := rfl
  have hstart : pyStartswith ("<" ++ s ++ ">") "<" = true := by
    unfold pyStartswith
    rw [hdata]
    rfl
  have hend : pyEndswith ("<" ++ s ++ ">") ">" = true := by
    unfold pyEndswith
    rw [hdata]
    rw [show ('<' :: (s.data ++ ['>'])).reverse = '>' :: (s.data.reverse ++ ['<']) by simp]
    rfl
  have hdec : decode_url ("<" ++ s ++ ">") = s := by
    unfold decode_url
    rw [hdata, pyStrip_angle_wrap (fun c hc => ⟨(h c hc).2.2.1, (h c hc).2.2.2.1⟩),
      decode_pipeline_ascii (fun c hc => ⟨(h c hc).1, (h c hc).2.2.2.2⟩)]
  simp [NTriplesReader.resolve_node, hstart, hend, hdec]

theorem tripleLine_data (s r o : String) :
    (NTriplesWriter.tripleLine (s, r, o)).data
      = ('<' :: (s.data ++ ['>'])) ++ ' ' ::
          (('<' :: (r.data ++ ['>'])) ++ ' ' ::
            (('<' :: (o.data ++ ['>'])) ++ ' ' :: ['.'])) := by
  have d0 : ("<" : String).data = ['<'] := rfl
  have d1 : ("> <" : String).data = ['>', ' ', '<'] := rfl
  have d2 : ("> ." : String).data = ['>', ' ', '.'] := rfl
  unfold NTriplesWriter.tripleLine
  simp [String.data_append, d0, d1, d2]

theorem pySplit_tripleLine (s r o : String)
    (hs : ' ' ∉ s.data) (hr : ' ' ∉ r.data) (ho : ' ' ∉ o.data) :
    pySplit ' ' (NTriplesWriter.tripleLine (s, r, o))
      = ["<" ++ s ++ ">", "<" ++ r ++ ">", "<" ++ o ++ ">", "."] := by
  have hxs : ∀ t : String, ' ' ∉ t.data → ' ' ∉ ('<' :: (t.data ++ ['>'])) := by
    intro t ht hm
    rcases List.mem_cons.mp hm with h1 | h1
    · exact absurd h1 (by decide)
    · rcases List.mem_append.mp h1 with h2 | h2
      · exact ht h2
      · simp at h2
  unfold pySplit
  rw [tripleLine_data, splitChar_append _ (hxs s hs), splitChar_append _ (hxs r hr),
    splitChar_append _ (hxs o ho), splitChar_of_not_mem (by decide)]
  rfl

/-- The hypotheses of the corrected round-trip claim: a token that is
pure ASCII with no space, no angle bracket, and no percent sign. -/
def goodToken (s : String) : Prop :=
  ∀ c ∈ s.data, c.toNat < 128 ∧ c ≠ ' ' ∧ c ≠ '<' ∧ c ≠ '>' ∧ c ≠ '%'

instance goodToken.decidable (s : String) : Decidable (goodToken s) := by
  unfold goodToken
  exact List.decidableBAll _ _

/-- Claim C1 counterexample. `"%41"` is a pure-ASCII token with no space
and no angle bracket, so the claim covers it; but parsing the emitted
line percent-decodes it, returning the subject node `('URL', "A")`, not
`('URL', "%41")`. -/
theorem roundtrip_claim_false :
    ((NTriplesWriter.init (.stream .stdout)).write ("%41", "a", "b")).out
        = ["<%41> <a> <b> ."] ∧
    (NTriplesReader.parse_line ⟨[]⟩ "<%41> <a> <b> .").1
        = .ok (some (("URL", "A"), ("URL", "a"), ("URL", "b"))) ∧
    ("A" : String) ≠ "%41" := by
  refine ⟨by decide, ?_, by decide⟩
  have h := parse_line_triple_red ⟨[]⟩ "<%41> <a> <b> ." "<%41>" "<a>" "<b>"
    (by decide) (by decide)
  rw [h]
  decide

/-- Claim C1 (amended). For triples of pure-ASCII URL strings containing no
space, no angle bracket, and additionally no `%`, a fresh writer emits
exactly the line `<s> <r> <o> .`, and parsing that line (newline already
stripped) on a fresh reader yields `(('URL', s), ('URL', r), ('URL', o))`.
Without the no-`%` restriction the parse yields the percent-decoded
strings instead. -/
theorem write_parse_roundtrip (s r o : String)
    (hs : goodToken s) (hr : goodToken r) (ho : goodToken o) :
    ((NTriplesWriter.init (.stream .stdout)).write (s, r, o)).out
        = [NTriplesWriter.tripleLine (s, r, o)] ∧
    (NTriplesReader.parse_line ⟨[]⟩ (NTriplesWriter.tripleLine (s, r, o))).1
        = .ok (some (("URL", s), ("URL", r), ("URL", o))) := by
  constructor
  · simp [NTriplesWriter.init, NTriplesWriter.write]
  · have hp : pyStartswith (NTriplesWriter.tripleLine (s, r, o)) "@prefix" = false := by
      unfold pyStartswith
      rw [tripleLine_data]
      rfl
    have hsp := pySplit_tripleLine s r o
      (fun hm => (hs _ hm).2.1 rfl) (fun hm => (hr _ hm).2.1 rfl)
      (fun hm => (ho _ hm).2.1 rfl)
    have hred := parse_line_triple_red ⟨[]⟩ (NTriplesWriter.tripleLine (s, r, o))
      _ _ _ hp hsp
    rw [hred, resolve_node_bracket _ s hs, resolve_node_bracket _ r hr,
      resolve_node_bracket _ o ho]

/-- Witness for C1: a concrete clean ASCII triple survives the round
trip. -/
theorem write_parse_roundtrip_witness :
    goodToken "http://example.com/dog" ∧ goodToken "http://example.com/is-a" ∧
      goodToken "http://example.com/animal" ∧
    ((NTriplesWriter.init (.stream .stdout)).write
        ("http://example.com/dog", "http://example.com/is-a",
          "http://example.com/animal")).out
      = [NTriplesWriter.tripleLine ("http://example.com/dog", "http://example.com/is-a",
          "http://example.com/animal")] ∧
    (NTriplesReader.parse_line ⟨[]⟩ (NTriplesWriter.tripleLine ("http://example.com/dog",
        "http://example.com/is-a", "http://example.com/animal"))).1
      = .ok (some (("URL", "http://example.com/dog"), ("URL", "http://example.com/is-a"),
          ("URL", "http://example.com/animal"))) :=
  ⟨by decide, by decide, by decide,
    (write_parse_roundtrip "http://example.com/dog" "http://example.com/is-a"
      "http://example.com/animal" (by decide) (by decide) (by decide)).1,
    (write_parse_roundtrip "http://example.com/dog" "http://example.com/is-a"
      "http://example.com/animal" (by decide) (by decide) (by decide)).2⟩

/-! ## Resource Namer: `urlsplit` and `resource_name` -/

/-- Characters CPython's `urlsplit` allows in a scheme
(`scheme_chars`): letters, digits, `+`, `-`, `.`. -/
def schemeChar (c : Char) : Bool :=
  ('a' ≤ c && c ≤ 'z') || ('A' ≤ c && c ≤ 'Z') || ('0' ≤ c && c ≤ '9') ||
    c == '+' || c == '-' || c == '.'

def isAsciiAlpha (c : Char) : Bool :=
  ('a' ≤ c && c ≤ 'z') || ('A' ≤ c && c ≤ 'Z')

/-- Not a netloc delimiter (`/`, `?`, `#`). -/
def netlocChar (c : Char) : Bool :=
  !(c == '/' || c == '?' || c == '#')

/-- The record `urlsplit` returns. -/
structure SplitResult where
  scheme : String
  netloc : String
  path : String
  query : String
  fragment : String
deriving DecidableEq

/-- Model of CPython `urllib.parse.urlsplit` (Python 3, default
arguments): an initial `alpha (alpha|digit|+|-|.)*` before a colon is the
scheme (lower-cased); after `//` the netloc runs to the first `/`, `?` or
`#`, and a netloc containing `[` without `]` (or vice versa) raises
`ValueError("Invalid IPv6 URL")`; the fragment is everything after the
first `#` of the remainder; the query is everything after the first `?`
of what precedes the fragment; the path is what is left. -/
def pyUrlsplit (url : String) : Except PyErr SplitResult :=
  let l := url.data
  let schemeRest : List Char × List Char :=
    match splitFirst ':' l with
    | some (c :: pre, after) =>
      if isAsciiAlpha c && (c :: pre).all schemeChar then
        ((c :: pre).map Char.toLower, after)
      else ([], l)
    | _ => ([], l)
  let netlocRest : List Char × List Char :=
    match schemeRest.2 with
    | '/' :: '/' :: tail => (tail.takeWhile netlocChar, tail.dropWhile netlocChar)
    | _ => ([], schemeRest.2)
  if ('[' ∈ netlocRest.1 ∧ ']' ∉ netlocRest.1) ∨
      (']' ∈ netlocRest.1 ∧ '[' ∉ netlocRest.1) then
    .error .valueError
  else
    let fragSplit : List Char × List Char :=
      match splitFirst '#' netlocRest.2 with
      | some (a, b) => (a, b)
      | none => (netlocRest.2, [])
    let querySplit : List Char × List Char :=
      match splitFirst '?' fragSplit.1 with
      | some (a, b) => (a, b)
      | none => (fragSplit.1, [])
    .ok ⟨⟨schemeRest.1⟩, ⟨netlocRest.1⟩, ⟨querySplit.1⟩, ⟨querySplit.2⟩, ⟨fragSplit.2⟩⟩

/-- Python `needle in haystack` on character lists. -/
def hasSubstr (pat : List Char) : List Char → Bool
  | [] => listIsPfx pat []
  | c :: rest => listIsPfx pat (c :: rest) || hasSubstr pat rest

/-- Fuel-driven worker for Python `s.split(sep)` with a non-empty
separator `p0 :: ps`: scan left to right, splitting at each
non-overlapping occurrence. `acc` holds the current piece reversed. Every
step consumes at least one character, so fuel equal to the input length
suffices. -/
def pySplitStrFuel (p0 : Char) (ps : List Char) : Nat → List Char → List Char → List (List Char)
  | 0, acc, _ => [acc.reverse]
  | _ + 1, acc, [] => [acc.reverse]
  | fuel + 1, acc, c :: rest =>
    if listIsPfx (p0 :: ps) (c :: rest) then
      acc.reverse :: pySplitStrFuel p0 ps fuel [] ((c :: rest).drop (ps.length + 1))
    else pySplitStrFuel p0 ps fuel (c :: acc) rest

/-- Python `s.split(sep)` for the non-empty separator `p0 :: ps`. -/
def pySplitStr (p0 : Char) (ps : List Char) (l : List Char) : List (List Char) :=
  pySplitStrFuel p0 ps l.length [] l

/-- Model of `semantic_web.resource_name`: decode, then prefer a
non-empty fragment; else strip `/` off the path and take the last piece
of splitting on `/resource/` when that substring occurs, the part after
the last `/` otherwise. The library's urlsplit error propagates. -/
def resource_name (url : String) : Except PyErr String :=
  match pyUrlsplit (decode_url url) with
  | .error e => .error e
  | .ok parsed =>
    if parsed.fragment ≠ "" then .ok parsed.fragment
    else
      let path : List Char := pyStrip ['/'] parsed.path.data
      if hasSubstr ("/resource/".data) path then
        .ok ⟨(pySplitStr '/' ("resource/".data) path).getLastD []⟩
      else
        .ok ⟨(pySplitStr '/' [] path).getLastD []⟩

/-! ## URI Translator -/

/-- Root URL for ConceptNet 5.2 web data.
Modelled from the spec: the constant `ROOT_URL` is imported from
`conceptnet5.uri`, which is not among the sources under verification; its
value is fixed by the spec's doctest for `full_conceptnet_url`
(`'/c/en/dog'` maps to
`'http://conceptnet5.media.mit.edu/data/5.2/c/en/dog'`). -/
def ROOT_URL : String := "http://conceptnet5.media.mit.edu/data/5.2"

/-- Bytes CPython `urllib.parse.quote` leaves unescaped with the default
`safe='/'`: ASCII letters, digits, `_`, `.`, `-`, `~`, and `/`. -/
def quoteSafeByte (b : Nat) : Bool :=
  (65 ≤ b && b ≤ 90) || (97 ≤ b && b ≤ 122) || (48 ≤ b && b ≤ 57) ||
    b == 95 || b == 46 || b == 45 || b == 126 || b == 47

/-- Upper-case hex digit of `n < 16`. -/
def hexUpper (n : Nat) : Char :=
  if n < 10 then Char.ofNat (48 + n) else Char.ofNat (55 + n)

/-- One byte of `quote` output: safe bytes stay, others become `%XX`. -/
def quoteByte (b : Nat) : List Char :=
  if quoteSafeByte b then [Char.ofNat b]
  else ['%', hexUpper (b / 16 % 16), hexUpper (b % 16)]

/-- Model of `urllib.parse.quote(s)` with default arguments: encode to
UTF-8 and percent-encode every unsafe byte with upper-case hex. -/
def pyQuote (s : String) : String :=
  ⟨(strToBytes s).flatMap quoteByte⟩

/-- Model of `semantic_web.full_conceptnet_url`: `assert
uri.startswith('/')`, then `ROOT_URL + quote(uri)`. -/
def full_conceptnet_url (uri : String) : Except PyErr String :=
  if pyStartswith uri "/" then .ok (ROOT_URL ++ pyQuote uri)
  else .error .assertionError

/-- Claim C7 counterexample. Two failures of the claim as stated. (i) The
claim promises a returned string for every encoded URL input, but a
decoded URL whose network location contains an unmatched `[` makes the
URL splitter raise `ValueError("Invalid IPv6 URL")`, which propagates out
of `resource_name`. (ii) With overlapping occurrences of `/resource/`,
the code's left-to-right non-overlapping split keeps more than the text
after the rightmost occurrence: in the path `a/resource/resource/b` the
last occurrence of `/resource/` starts at index 10 (as the decomposition
in the third conjunct shows), so "everything after the last occurrence"
is `"b"`, yet the code returns `"resource/b"`. -/
theorem resource_name_claim_false :
    resource_name "<http://[a/b>" = .error .valueError ∧
    resource_name "<http://e/a/resource/resource/b>" = .ok "resource/b" ∧
    ("a/resource/resource/b").data
      = ("a/resource".data ++ "/resource/".data ++ "b".data) ∧
    ("resource/b" : String) ≠ "b" := by decide

/-- Claim C7 (amended). `resource_name` first decodes its input. If the URL
split of the decoded URL fails (unmatched square bracket in the network
location), that error propagates. Otherwise a non-empty fragment is
returned verbatim; otherwise the path, stripped of leading and trailing
`/`, is reduced to the last piece of its left-to-right non-overlapping
split on `/resource/` when that substring occurs, and to the part after
the last `/` otherwise; an empty stripped path with no fragment yields
the empty string, not an error. -/
theorem resource_name_spec (url : String) :
    (∀ e, pyUrlsplit (decode_url url) = .error e → resource_name url = .error e) ∧
    (∀ parsed, pyUrlsplit (decode_url url) = .ok parsed →
      (parsed.fragment ≠ "" → resource_name url = .ok parsed.fragment) ∧
      (parsed.fragment = "" →
        (hasSubstr ("/resource/".data) (pyStrip ['/'] parsed.path.data) = true →
          resource_name url
            = .ok ⟨(pySplitStr '/' ("resource/".data)
                (pyStrip ['/'] parsed.path.data)).getLastD []⟩) ∧
        (hasSubstr ("/resource/".data) (pyStrip ['/'] parsed.path.data) = false →
          resource_name url
            = .ok ⟨(pySplitStr '/' [] (pyStrip ['/'] parsed.path.data)).getLastD []⟩) ∧
        (pyStrip ['/'] parsed.path.data = [] → resource_name url = .ok ""))) := by
  constructor
  · intro e he
    simp [resource_name, he]
  · intro parsed hp
    refine ⟨fun hf => by simp [resource_name, hp, hf], fun hf => ⟨?_, ?_, ?_⟩⟩
    · intro hh
      simp [resource_name, hp, hf, hh]
    · intro hh
      simp [resource_name, hp, hf, hh]
    · intro hpath
      have hh : hasSubstr ("/resource/".data) (pyStrip ['/'] parsed.path.data) = false := by
        rw [hpath]; decide
      simp [resource_name, hp, hf, hh, hpath]
      rfl

/-- Witness for C7: the docstring example (percent-decoding plus the
`/resource/` rule) and a fragment that takes precedence over a path. -/
theorem resource_name_witness :
    resource_name "<http://dbpedia.org/resource/N%C3%BAria_Espert>" = .ok "Núria_Espert" ∧
    resource_name "http://example.com/path#frag" = .ok "frag" := by
  constructor
  · have h := (resource_name_spec "<http://dbpedia.org/resource/N%C3%BAria_Espert>").2
      ⟨"http", "dbpedia.org", "/resource/Núria_Espert", "", ""⟩ (by decide)
    have h2 := (h.2 (by decide)).2.1 (by decide)
    rw [h2]
    decide
  · have h := (resource_name_spec "http://example.com/path#frag").2
      ⟨"http", "example.com", "/path", "", "frag"⟩ (by decide)
    exact h.1 (by decide)

/-! ### Character shape of `quote` output -/

theorem hexUpper_clean {n : Nat} (h : n < 16) :
    hexUpper n ≠ ' ' ∧ hexUpper n ≠ '<' ∧ hexUpper n ≠ '>' := by
  interval_cases n <;> decide

theorem quoteByte_clean (b : Nat) :
    ∀ c ∈ quoteByte b, c ≠ ' ' ∧ c ≠ '<' ∧ c ≠ '>' := by
  intro c hc
  unfold quoteByte at hc
  by_cases hs : quoteSafeByte b = true
  · rw [if_pos hs] at hc
    have hceq : c = Char.ofNat b := by simpa using hc
    subst hceq
    unfold quoteSafeByte at hs
    simp only [Bool.or_eq_true, Bool.and_eq_true, decide_eq_true_eq, beq_iff_eq] at hs
    have hb : b ≤ 126 := by omega
    interval_cases b <;> revert hs <;> decide
  · rw [if_neg hs] at hc
    simp only [List.mem_cons, List.not_mem_nil, or_false] at hc
    rcases hc with rfl | rfl | rfl
    · decide
    · exact hexUpper_clean (Nat.mod_lt _ (by decide))
    · exact hexUpper_clean (Nat.mod_lt _ (by decide))

/-- Claim C8. `full_conceptnet_url` fails (assertion error) for every URI
not starting with `/`; for every URI starting with `/` it returns
`ROOT_URL` followed by the percent-encoding of the URI (`/` preserved),
so the result extends the fixed root and contains no space and no `<` or
`>`. -/
theorem full_conceptnet_url_spec (uri : String) :
    (pyStartswith uri "/" = false →
      full_conceptnet_url uri = .error .assertionError) ∧
    (pyStartswith uri "/" = true →
      full_conceptnet_url uri = .ok (ROOT_URL ++ pyQuote uri) ∧
      (∃ t, ROOT_URL ++ pyQuote uri = ROOT_URL ++ t) ∧
      (∀ c ∈ (ROOT_URL ++ pyQuote uri).data, c ≠ ' ' ∧ c ≠ '<' ∧ c ≠ '>')) := by
  constructor
  · intro h
    simp [full_conceptnet_url, h]
  · intro h
    refine ⟨by simp [full_conceptnet_url, h], ⟨pyQuote uri, rfl⟩, ?_⟩
    intro c hc
    rw [String.data_append] at hc
    rcases List.mem_append.mp hc with h1 | h1
    · have hroot : ∀ x ∈ ROOT_URL.data, x ≠ ' ' ∧ x ≠ '<' ∧ x ≠ '>' := by decide
      exact hroot c h1
    · have h2 : c ∈ (strToBytes uri).flatMap quoteByte := h1
      obtain ⟨b, _, hcb⟩ := List.mem_flatMap.mp h2
      exact quoteByte_clean b c hcb

/-- Witness for C8: the doctest `/c/en/dog`, and a relative URI hitting
the assertion. -/
theorem full_conceptnet_url_witness :
    pyStartswith "/c/en/dog" "/" = true ∧
    full_conceptnet_url "/c/en/dog"
      = .ok "http://conceptnet5.media.mit.edu/data/5.2/c/en/dog" ∧
    full_conceptnet_url "c/en/dog" = .error .assertionError :=
  ⟨by decide,
    by rw [((full_conceptnet_url_spec "/c/en/dog").2 (by decide)).1]; decide,
    (full_conceptnet_url_spec "c/en/dog").1 (by decide)⟩

end ConceptNet
